import Mathlib

/-!
Verification of the weekly availability grid of the schedule-ai repository.

The embedded code comes from
`src/frontend/src/components/TimeSelector.tsx` (slot grid and drag painter)
and `src/frontend/src/components/ScheduleForm.tsx` (initial state, submission
gate and serialization).

JavaScript `BigInt` values are arbitrary-precision integers whose bitwise
operators (`&`, `|`, `^`, `~`, `<<`) act on the infinite two's-complement
representation; these are exactly `Int.land`, `Int.lor`, `Int.xor`,
`Int.lnot` and `<<<` on `ℤ` from Mathlib, so a day's bitmask is embedded
as `ℤ`.
-/

namespace Sched

/-- Day: the seven weekday keys of the availability record
(`export type Day = "Monday" | ... | "Sunday"` in ScheduleForm.tsx). -/
inductive Day
  | Monday
  | Tuesday
  | Wednesday
  | Thursday
  | Friday
  | Saturday
  | Sunday
deriving DecidableEq, Repr, Fintype

/-- DAYS: the list of the seven day keys, in declaration order
(`const DAYS: Day[] = [...]` in ScheduleForm.tsx line 15). -/
def DAYS : List Day :=
  [Day.Monday, Day.Tuesday, Day.Wednesday, Day.Thursday, Day.Friday,
   Day.Saturday, Day.Sunday]

/-- Availability: `Record<Day, bigint>` — one arbitrary-precision bitmask per
day.  The JS object always has exactly the seven `Day` keys (it is created by
`Object.fromEntries(DAYS.map ...)` and only updated by spreads that replace a
single existing key), which the total-function representation captures. -/
def Availability : Type := Day → ℤ

/-- initialState: every day starts with the empty bitmask
(`Object.fromEntries(DAYS.map((day) => [day, 0n]))`, ScheduleForm.tsx
line 17). -/
def initialState : Availability := fun _ => 0

/-- isSlotSelected (TimeSelector.tsx lines 38–40):
`(selectedTimes[day] & (1n << BigInt(timeIndex))) !== 0n`. -/
def isSlotSelected (selectedTimes : Availability) (day : Day)
    (timeIndex : ℕ) : Bool :=
  decide (Int.land (selectedTimes day) ((1 : ℤ) <<< (timeIndex : ℤ)) ≠ 0)

/-- toggleSlot (TimeSelector.tsx lines 42–47):
`{...prev, [day]: prev[day] ^ (1n << BigInt(timeIndex))}`. -/
def toggleSlot (prev : Availability) (day : Day) (timeIndex : ℕ) :
    Availability :=
  fun d => if d = day then
    Int.xor (prev day) ((1 : ℤ) <<< (timeIndex : ℤ))
  else prev d

/-- setSlot (TimeSelector.tsx lines 49–59): copy the record, then
`newState[day] = newState[day] | (1n << BigInt(timeIndex))` when `selected`,
else `newState[day] = newState[day] & ~(1n << BigInt(timeIndex))`. -/
def setSlot (prev : Availability) (day : Day) (timeIndex : ℕ)
    (selected : Bool) : Availability :=
  fun d => if d = day then
    (if selected then Int.lor (prev day) ((1 : ℤ) <<< (timeIndex : ℤ))
     else Int.land (prev day) (Int.lnot ((1 : ℤ) <<< (timeIndex : ℤ))))
  else prev d

/-- DragAction: the `'select' | 'deselect'` drag action
(TimeSelector.tsx line 36). -/
inductive DragAction
  | select
  | deselect
deriving DecidableEq, Repr

/-- DragState: the three pieces of drag-tracking component state
(`isDragging`, `dragDay`, `dragAction`; TimeSelector.tsx lines 34–36). -/
structure DragState where
  isDragging : Bool
  dragDay : Option Day
  dragAction : Option DragAction
deriving DecidableEq, Repr

/-- UIState: the availability record together with the drag-tracking state. -/
structure UIState where
  selectedTimes : Availability
  drag : DragState

/-- idleDrag: the initial / post-gesture drag state
(`useState(false)`, `useState(null)`, `useState(null)`). -/
def idleDrag : DragState :=
  { isDragging := false, dragDay := none, dragAction := none }

/-- handleSlotMouseDown (TimeSelector.tsx lines 61–68): read `wasSelected`,
set `dragDay = day`, `dragAction = wasSelected ? 'deselect' : 'select'`,
`isDragging = true`, then `toggleSlot(day, timeIndex)`. -/
def handleSlotMouseDown (s : UIState) (day : Day) (timeIndex : ℕ) : UIState :=
  let wasSelected := isSlotSelected s.selectedTimes day timeIndex
  { selectedTimes := toggleSlot s.selectedTimes day timeIndex,
    drag := { isDragging := true,
              dragDay := some day,
              dragAction :=
                some (if wasSelected then DragAction.deselect
                      else DragAction.select) } }

/-- handleSlotMouseEnter (TimeSelector.tsx lines 70–79):
`if (!isDragging || dragDay !== day || dragAction === null) return;` then
`shouldBeSelected = dragAction === 'select'`,
`isSelected = isSlotSelected(day, timeIndex)`, and
`if (isSelected !== shouldBeSelected) setSlot(day, timeIndex,
shouldBeSelected)`. -/
def handleSlotMouseEnter (s : UIState) (day : Day) (timeIndex : ℕ) :
    UIState :=
  if s.drag.isDragging = false ∨ s.drag.dragDay ≠ some day ∨
      s.drag.dragAction = none then s
  else
    let shouldBeSelected : Bool :=
      decide (s.drag.dragAction = some DragAction.select)
    let isSelected := isSlotSelected s.selectedTimes day timeIndex
    if isSelected ≠ shouldBeSelected then
      { s with selectedTimes :=
          setSlot s.selectedTimes day timeIndex shouldBeSelected }
    else s

/-- handleMouseUp (TimeSelector.tsx lines 81–85): reset the drag state. -/
def handleMouseUp (s : UIState) : UIState :=
  { s with drag := idleDrag }

/-- hasSelection (ScheduleForm.tsx line 43):
`Object.values(selectedTimes).some(dayBits => dayBits > 0n)`. -/
def hasSelection (selectedTimes : Availability) : Bool :=
  DAYS.any fun day => decide (0 < selectedTimes day)

/-- serializeSchedule (ScheduleForm.tsx line 52): the `JSON.stringify`
replacer turns each day's bigint into its decimal string
(`value.toString()`), so the wire value maps each day to that string. -/
def serializeSchedule (selectedTimes : Availability) : Day → String :=
  fun day => toString (selectedTimes day)

/-- handleSubmit (ScheduleForm.tsx lines 39–53), restricted to the core:
if no slot is selected, alert `'Please select at least one time slot'` and
return without submitting; otherwise build the serialized schedule payload.
The availability record is returned unchanged in both branches — the source
never writes to `selectedTimes` during submission.  The network call on the
payload is outside the core and not modelled. -/
def handleSubmit (selectedTimes : Availability) :
    Except String (Day → String) × Availability :=
  if hasSelection selectedTimes = false then
    (Except.error "Please select at least one time slot", selectedTimes)
  else
    (Except.ok (serializeSchedule selectedTimes), selectedTimes)

/-- padStart models JS `String.prototype.padStart(targetLength, pad)` for a
one-character pad string: prepend copies of `pad` until the length reaches
`targetLength` (no-op when already long enough). -/
def padStart (s : String) (targetLength : ℕ) (pad : Char) : String :=
  if targetLength ≤ s.length then s
  else String.mk (List.replicate (targetLength - s.length) pad) ++ s

/-- timeLabel (TimeSelector.tsx lines 6–26): the label for slot `i` of the
`timeLabels` array — `hour = 7 + Math.floor(i / 4)`,
`minute = (i % 4) * 15`, 12-hour `hourStr`, and either
`hourStr:00 AM/PM` at hour marks or `hourStr:MM` otherwise
(`minute.toString().padStart(2, '0')`). -/
def timeLabel (i : ℕ) : String :=
  let hour := 7 + i / 4
  let minute := (i % 4) * 15
  let isHourMark : Bool := decide (minute = 0)
  let hourStr : String :=
    if hour = 12 then "12"
    else if hour > 12 then toString (hour - 12)
    else toString hour
  if isHourMark then
    let ampm := if hour < 12 then "AM" else "PM"
    hourStr ++ ":00 " ++ ampm
  else
    hourStr ++ ":" ++ padStart (toString minute) 2 '0'

/-- timeLabels (TimeSelector.tsx line 6):
`Array.from({length: 60}, (_, i) => ...)`. -/
def timeLabels : List String := (List.range 60).map timeLabel

/-- Modelled from the spec: the label formula of §3 / claim C4 — `hour = 7 +
index div 4`, `minute = (index mod 4) × 15`; hour-mark slots render as
`H:00` plus meridiem (AM before noon, PM from noon), other slots as `H:MM`;
`H` is the 12-hour display hour fixed by the spec's examples (7 → "7",
12 → "12", 14 → "2"). -/
def specTimeLabel (index : ℕ) : String :=
  let hour := 7 + index / 4
  let minute := (index % 4) * 15
  let displayHour := if hour = 12 then 12 else if hour > 12 then hour - 12 else hour
  if minute = 0 then
    toString displayHour ++ ":00 " ++ (if hour < 12 then "AM" else "PM")
  else
    toString displayHour ++ ":" ++ toString minute

/-- SlotOp: one mutation of the availability record — either of the two
mutators the TimeSelector ever applies. -/
inductive SlotOp
  | toggle (day : Day) (timeIndex : ℕ)
  | set (day : Day) (timeIndex : ℕ) (selected : Bool)

/-- applyOp applies one mutation. -/
def applyOp (a : Availability) : SlotOp → Availability
  | SlotOp.toggle day i => toggleSlot a day i
  | SlotOp.set day i b => setSlot a day i b

/-- applyOps applies a sequence of mutations, oldest first. -/
def applyOps (a : Availability) (ops : List SlotOp) : Availability :=
  ops.foldl applyOp a

/-- opIndex extracts the slot index an operation touches. -/
def opIndex : SlotOp → ℕ
  | SlotOp.toggle _ i => i
  | SlotOp.set _ i _ => i

/-- validAvail: a state is valid when every day's bitmask is a nonnegative
value below `2 ^ 60` (only slot bits 0–59 may be set). -/
def validAvail (a : Availability) : Prop :=
  ∀ d, 0 ≤ a d ∧ a d < 2 ^ 60

/-- mondayFirstThree: the availability state of the serialization example —
bits 0, 1 and 2 of Monday set (via three `setSlot` calls), every other day
empty. -/
def mondayFirstThree : Availability :=
  setSlot (setSlot (setSlot initialState Day.Monday 0 true) Day.Monday 1 true)
    Day.Monday 2 true

/-- SpecError is the error taxonomy of spec §7 relevant to slot queries. -/
inductive SpecError
  | outOfRange
deriving DecidableEq, Repr

/-- Modelled from the spec: `isSelected(day, index)` as §4.1 and §7 word it —
it returns whether bit `index` is set for `day` and fails with
`OutOfRangeError` when `index` is outside the valid slot range [0, 59].
This error path is absent from the source (`isSlotSelected` performs the bit
test unconditionally); the definition exists to state claim C5. -/
def isSelectedSpec (a : Availability) (day : Day) (index : ℕ) :
    Except SpecError Bool :=
  if 59 < index then Except.error SpecError.outOfRange
  else Except.ok (Int.testBit (a day) index)

/-! ### Bridge lemmas between the embedded BigInt operations and `testBit` -/

lemma one_shl_ofNat (i : ℕ) : ((1 : ℤ) <<< (i : ℤ)) = Int.ofNat (2 ^ i) :=
  Int.one_shiftLeft i

lemma land_ofNat_ofNat (m n : ℕ) :
    Int.land (Int.ofNat m) (Int.ofNat n) = Int.ofNat (m &&& n) := rfl

lemma land_ofNat_negSucc (m n : ℕ) :
    Int.land (Int.ofNat m) (Int.negSucc n) = Int.ofNat (Nat.ldiff m n) := rfl

lemma land_negSucc_ofNat (m n : ℕ) :
    Int.land (Int.negSucc m) (Int.ofNat n) = Int.ofNat (Nat.ldiff n m) := rfl

lemma land_negSucc_negSucc (m n : ℕ) :
    Int.land (Int.negSucc m) (Int.negSucc n) = Int.negSucc (m ||| n) := rfl

lemma lor_ofNat_ofNat (m n : ℕ) :
    Int.lor (Int.ofNat m) (Int.ofNat n) = Int.ofNat (m ||| n) := rfl

lemma lor_negSucc_ofNat (m n : ℕ) :
    Int.lor (Int.negSucc m) (Int.ofNat n) = Int.negSucc (Nat.ldiff m n) := rfl

lemma xor_ofNat_ofNat (m n : ℕ) :
    Int.xor (Int.ofNat m) (Int.ofNat n) = Int.ofNat (m ^^^ n) := rfl

lemma xor_negSucc_ofNat (m n : ℕ) :
    Int.xor (Int.negSucc m) (Int.ofNat n) = Int.negSucc (m ^^^ n) := rfl

lemma lnot_ofNat (m : ℕ) : Int.lnot (Int.ofNat m) = Int.negSucc m := rfl

lemma int_testBit_ofNat (n j : ℕ) :
    Int.testBit (Int.ofNat n) j = Nat.testBit n j := rfl

lemma int_testBit_negSucc (n j : ℕ) :
    Int.testBit (Int.negSucc n) j = !(Nat.testBit n j) := rfl

lemma testBit_mask (i j : ℕ) :
    Int.testBit ((1 : ℤ) <<< (i : ℤ)) j = decide (i = j) := by
  rw [one_shl_ofNat, int_testBit_ofNat]
  exact Nat.testBit_two_pow

lemma nat_and_two_pow (n i : ℕ) :
    n &&& 2 ^ i = if n.testBit i then 2 ^ i else 0 := by
  apply Nat.eq_of_testBit_eq
  intro j
  rcases eq_or_ne i j with rfl | h
  · cases hb : n.testBit i <;>
      simp [Nat.testBit_and, hb, Nat.testBit_two_pow_self]
  · cases hb : n.testBit i <;>
      simp [Nat.testBit_and, Nat.testBit_two_pow_of_ne h, Nat.zero_testBit]

lemma nat_ldiff_two_pow (n i : ℕ) :
    Nat.ldiff (2 ^ i) n = if n.testBit i then 0 else 2 ^ i := by
  apply Nat.eq_of_testBit_eq
  intro j
  rcases eq_or_ne i j with rfl | h
  · cases hb : n.testBit i <;>
      simp [Nat.testBit_ldiff, hb, Nat.testBit_two_pow_self, Nat.zero_testBit]
  · cases hb : n.testBit i <;>
      simp [Nat.testBit_ldiff, Nat.testBit_two_pow_of_ne h, Nat.zero_testBit]

/-- isSlotSelected is exactly the `testBit` query on the day's bitmask. -/
lemma isSlotSelected_eq_testBit (a : Availability) (d : Day) (i : ℕ) :
    isSlotSelected a d i = Int.testBit (a d) i := by
  unfold isSlotSelected
  rw [one_shl_ofNat]
  cases h : a d with
  | ofNat n =>
    rw [land_ofNat_ofNat, int_testBit_ofNat, nat_and_two_pow]
    cases hb : n.testBit i <;> simp [hb, Int.ofNat_eq_coe, pow_ne_zero]
  | negSucc n =>
    rw [land_negSucc_ofNat, int_testBit_negSucc, nat_ldiff_two_pow]
    cases hb : n.testBit i <;> simp [hb, Int.ofNat_eq_coe, pow_ne_zero]

lemma toggleVal_testBit (x : ℤ) (i j : ℕ) :
    Int.testBit (Int.xor x ((1 : ℤ) <<< (i : ℤ))) j =
      if j = i then !(Int.testBit x j) else Int.testBit x j := by
  rw [Int.testBit_lxor, testBit_mask]
  rcases eq_or_ne j i with rfl | hj
  · simp
  · simp [Ne.symm hj, hj]

lemma setVal_true_testBit (x : ℤ) (i j : ℕ) :
    Int.testBit (Int.lor x ((1 : ℤ) <<< (i : ℤ))) j =
      if j = i then true else Int.testBit x j := by
  rw [Int.testBit_lor, testBit_mask]
  rcases eq_or_ne j i with rfl | hj
  · simp
  · simp [Ne.symm hj, hj]

lemma setVal_false_testBit (x : ℤ) (i j : ℕ) :
    Int.testBit (Int.land x (Int.lnot ((1 : ℤ) <<< (i : ℤ)))) j =
      if j = i then false else Int.testBit x j := by
  rw [Int.testBit_land, Int.testBit_lnot, testBit_mask]
  rcases eq_or_ne j i with rfl | hj
  · simp
  · simp [Ne.symm hj, hj]

/-- Bit-level description of `toggleSlot`. -/
lemma toggleSlot_testBit (a : Availability) (d : Day) (i : ℕ) (d2 : Day)
    (j : ℕ) :
    Int.testBit (toggleSlot a d i d2) j =
      if d2 = d ∧ j = i then !(Int.testBit (a d2) j)
      else Int.testBit (a d2) j := by
  unfold toggleSlot
  by_cases hd : d2 = d
  · subst hd
    rw [if_pos rfl, toggleVal_testBit]
    by_cases hj : j = i <;> simp [hj]
  · simp [hd]

/-- Bit-level description of `setSlot`. -/
lemma setSlot_testBit (a : Availability) (d : Day) (i : ℕ) (b : Bool)
    (d2 : Day) (j : ℕ) :
    Int.testBit (setSlot a d i b d2) j =
      if d2 = d ∧ j = i then b else Int.testBit (a d2) j := by
  unfold setSlot
  by_cases hd : d2 = d
  · subst hd
    rw [if_pos rfl]
    cases b
    · rw [if_neg (by simp), setVal_false_testBit]
      by_cases hj : j = i <;> simp [hj]
    · rw [if_pos rfl, setVal_true_testBit]
      by_cases hj : j = i <;> simp [hj]
  · simp [hd]

lemma toggleSlot_apply_ne (a : Availability) (d : Day) (i : ℕ) (d2 : Day)
    (hd : d2 ≠ d) : toggleSlot a d i d2 = a d2 := by
  simp [toggleSlot, hd]

lemma setSlot_apply_ne (a : Availability) (d : Day) (i : ℕ) (b : Bool)
    (d2 : Day) (hd : d2 ≠ d) : setSlot a d i b d2 = a d2 := by
  simp [setSlot, hd]

/-! ### Algebraic value-level lemmas -/

lemma nat_or_or (n m : ℕ) : (n ||| m) ||| m = n ||| m := by
  apply Nat.eq_of_testBit_eq
  intro j
  cases hm : m.testBit j <;> simp [Nat.testBit_or, hm]

lemma nat_ldiff_ldiff (n m : ℕ) : Nat.ldiff (Nat.ldiff n m) m = Nat.ldiff n m := by
  apply Nat.eq_of_testBit_eq
  intro j
  cases hm : m.testBit j <;> simp [Nat.testBit_ldiff, hm]

lemma int_xor_xor (x : ℤ) (m : ℕ) :
    Int.xor (Int.xor x (Int.ofNat m)) (Int.ofNat m) = x := by
  cases x with
  | ofNat n =>
    rw [xor_ofNat_ofNat, xor_ofNat_ofNat]
    exact congrArg Int.ofNat (Nat.xor_cancel_right m n)
  | negSucc n =>
    rw [xor_negSucc_ofNat, xor_negSucc_ofNat]
    exact congrArg Int.negSucc (Nat.xor_cancel_right m n)

lemma int_lor_lor (x : ℤ) (m : ℕ) :
    Int.lor (Int.lor x (Int.ofNat m)) (Int.ofNat m) = Int.lor x (Int.ofNat m) := by
  cases x with
  | ofNat n =>
    rw [lor_ofNat_ofNat, lor_ofNat_ofNat]
    exact congrArg Int.ofNat (nat_or_or n m)
  | negSucc n =>
    rw [lor_negSucc_ofNat, lor_negSucc_ofNat]
    exact congrArg Int.negSucc (nat_ldiff_ldiff n m)

lemma int_clear_clear (x : ℤ) (m : ℕ) :
    Int.land (Int.land x (Int.lnot (Int.ofNat m))) (Int.lnot (Int.ofNat m)) =
      Int.land x (Int.lnot (Int.ofNat m)) := by
  rw [lnot_ofNat]
  cases x with
  | ofNat n =>
    rw [land_ofNat_negSucc, land_ofNat_negSucc]
    exact congrArg Int.ofNat (nat_ldiff_ldiff n m)
  | negSucc n =>
    rw [land_negSucc_negSucc, land_negSucc_negSucc]
    exact congrArg Int.negSucc (nat_or_or n m)

/-! ### Claim theorems -/

/-- C8: for every day `d`, index `i` in [0, 59] and availability state,
toggling cell `(d, i)` twice restores the whole availability mapping (hence
the original `isSelected(d, i)` value): `toggleSlot` is an involution. -/
theorem C8_toggle_involution (a : Availability) (d : Day) (i : ℕ)
    (hi : i ≤ 59) : toggleSlot (toggleSlot a d i) d i = a := by
  funext d2
  unfold toggleSlot
  by_cases hd : d2 = d
  · subst hd
    simp only [eq_self_iff_true, if_true]
    rw [one_shl_ofNat, int_xor_xor]
  · simp [hd]

/-- Witness for C8 at `(Monday, 10)` on the initial state. -/
theorem C8_toggle_involution_witness :
    (10 : ℕ) ≤ 59 ∧
      toggleSlot (toggleSlot initialState Day.Monday 10) Day.Monday 10 =
        initialState :=
  ⟨by decide, C8_toggle_involution initialState Day.Monday 10 (by decide)⟩

/-- C9: for every day `d`, index `i` in [0, 59], boolean `b` and availability
state, setting cell `(d, i)` to `b` twice yields the same mapping as setting
it once: `setSlot` is idempotent. -/
theorem C9_set_idempotent (a : Availability) (d : Day) (i : ℕ) (b : Bool)
    (hi : i ≤ 59) : setSlot (setSlot a d i b) d i b = setSlot a d i b := by
  funext d2
  unfold setSlot
  by_cases hd : d2 = d
  · subst hd
    simp only [eq_self_iff_true, if_true]
    cases b
    · simp only [Bool.false_eq_true, if_false, one_shl_ofNat, int_clear_clear]
    · simp only [if_true, one_shl_ofNat, int_lor_lor]
  · simp [hd]

/-- Witness for C9 at `(Tuesday, 5, true)` on the initial state. -/
theorem C9_set_idempotent_witness :
    (5 : ℕ) ≤ 59 ∧
      setSlot (setSlot initialState Day.Tuesday 5 true) Day.Tuesday 5 true =
        setSlot initialState Day.Tuesday 5 true :=
  ⟨by decide, C9_set_idempotent initialState Day.Tuesday 5 true (by decide)⟩

/-- C1: a pointer-down on cell `(d, i)` in the Idle state starts a drag on
day `d` whose action is deselect (erase) exactly when the cell was selected
and select (paint) otherwise, flips exactly bit `i` of day `d`, and leaves
every other bit of every day unchanged. -/
theorem C1_gesture_start (s : UIState) (d : Day) (i : ℕ) (hi : i ≤ 59)
    (hidle : s.drag = idleDrag) :
    (handleSlotMouseDown s d i).drag.isDragging = true ∧
    (handleSlotMouseDown s d i).drag.dragDay = some d ∧
    (handleSlotMouseDown s d i).drag.dragAction =
      some (if isSlotSelected s.selectedTimes d i then DragAction.deselect
            else DragAction.select) ∧
    isSlotSelected (handleSlotMouseDown s d i).selectedTimes d i =
      !(isSlotSelected s.selectedTimes d i) ∧
    (∀ j, j ≠ i →
      Int.testBit ((handleSlotMouseDown s d i).selectedTimes d) j =
        Int.testBit (s.selectedTimes d) j) ∧
    (∀ d2, d2 ≠ d →
      (handleSlotMouseDown s d i).selectedTimes d2 = s.selectedTimes d2) := by
  refine ⟨rfl, rfl, rfl, ?_, ?_, ?_⟩
  · rw [isSlotSelected_eq_testBit, isSlotSelected_eq_testBit]
    show Int.testBit (toggleSlot s.selectedTimes d i d) i = _
    rw [toggleSlot_testBit]
    simp
  · intro j hj
    show Int.testBit (toggleSlot s.selectedTimes d i d) j = _
    rw [toggleSlot_testBit]
    simp [hj]
  · intro d2 hd2
    exact toggleSlot_apply_ne s.selectedTimes d i d2 hd2

/-- Witness for C1 at `(Monday, 10)` from the all-idle initial UI state. -/
theorem C1_gesture_start_witness :
    ((10 : ℕ) ≤ 59 ∧
      (UIState.mk initialState idleDrag).drag = idleDrag) ∧
    isSlotSelected
      (handleSlotMouseDown (UIState.mk initialState idleDrag) Day.Monday
        10).selectedTimes Day.Monday 10 =
      !(isSlotSelected initialState Day.Monday 10) :=
  ⟨⟨by decide, rfl⟩,
   (C1_gesture_start (UIState.mk initialState idleDrag) Day.Monday 10
      (by decide) rfl).2.2.2.1⟩

/-- C3: while a drag is active on `day`, a pointer-enter on a cell of a
different day `day2` leaves the entire UI state (in particular every bit of
every day of the availability mapping) unchanged. -/
theorem C3_cross_day_confinement (s : UIState) (day day2 : Day)
    (action : DragAction) (i : ℕ)
    (hdrag : s.drag = ⟨true, some day, some action⟩) (hne : day2 ≠ day) :
    handleSlotMouseEnter s day2 i = s := by
  have hguard : s.drag.dragDay ≠ some day2 := by
    rw [hdrag]
    simp [Ne.symm hne]
  unfold handleSlotMouseEnter
  rw [if_pos (Or.inr (Or.inl hguard))]

lemma enter_drag (s : UIState) (day : Day) (i : ℕ) :
    (handleSlotMouseEnter s day i).drag = s.drag := by
  unfold handleSlotMouseEnter
  split
  · rfl
  · dsimp only
    split
    · rfl
    · rfl

lemma enter_guard_false (s : UIState) (day : Day) (action : DragAction)
    (hdrag : s.drag = ⟨true, some day, some action⟩) :
    ¬(s.drag.isDragging = false ∨ s.drag.dragDay ≠ some day ∨
        s.drag.dragAction = none) := by
  rw [hdrag]
  simp

lemma enter_shouldBe (s : UIState) (day : Day) (action : DragAction)
    (hdrag : s.drag = ⟨true, some day, some action⟩) :
    decide (s.drag.dragAction = some DragAction.select) =
      decide (action = DragAction.select) := by
  rw [hdrag]
  simp

/-- Bit-level description of a pointer-enter during a drag on `day`: bit `i`
of `day` becomes the drag target value, every other bit of `day` is kept. -/
lemma enter_bit (s : UIState) (day : Day) (action : DragAction) (i : ℕ)
    (hdrag : s.drag = ⟨true, some day, some action⟩) (j : ℕ) :
    Int.testBit ((handleSlotMouseEnter s day i).selectedTimes day) j =
      if j = i then decide (action = DragAction.select)
      else Int.testBit (s.selectedTimes day) j := by
  unfold handleSlotMouseEnter
  rw [if_neg (enter_guard_false s day action hdrag)]
  dsimp only
  rw [enter_shouldBe s day action hdrag]
  by_cases hne : isSlotSelected s.selectedTimes day i ≠
      decide (action = DragAction.select)
  · rw [if_pos hne]
    dsimp only
    rw [setSlot_testBit]
    by_cases hj : j = i <;> simp [hj]
  · rw [if_neg hne]
    push_neg at hne
    by_cases hj : j = i
    · subst hj
      rw [if_pos rfl, ← hne, isSlotSelected_eq_testBit]
    · rw [if_neg hj]

/-- A pointer-enter during a drag never touches another day's bitmask. -/
lemma enter_other_day (s : UIState) (day : Day) (i : ℕ) (d2 : Day)
    (hne : d2 ≠ day) :
    (handleSlotMouseEnter s day i).selectedTimes d2 = s.selectedTimes d2 := by
  unfold handleSlotMouseEnter
  split
  · rfl
  · dsimp only
    split
    · exact setSlot_apply_ne s.selectedTimes day i _ d2 hne
    · rfl

/-- A pointer-enter that finds the cell already at the drag target value is a
complete no-op on the UI state. -/
lemma enter_noop (s : UIState) (day : Day) (action : DragAction) (i : ℕ)
    (hdrag : s.drag = ⟨true, some day, some action⟩)
    (h : isSlotSelected s.selectedTimes day i =
      decide (action = DragAction.select)) :
    handleSlotMouseEnter s day i = s := by
  unfold handleSlotMouseEnter
  rw [if_neg (enter_guard_false s day action hdrag)]
  dsimp only
  rw [enter_shouldBe s day action hdrag, if_neg (by simp [h])]

/-- Once a bit of the drag day holds the drag target value, any further run of
pointer-enters on that day keeps it there. -/
lemma run_keeps_target (day : Day) (action : DragAction) (js : List ℕ) :
    ∀ s : UIState, s.drag = ⟨true, some day, some action⟩ →
    ∀ j, Int.testBit (s.selectedTimes day) j =
        decide (action = DragAction.select) →
    Int.testBit
        ((js.foldl (fun t k => handleSlotMouseEnter t day k) s).selectedTimes
          day) j =
      decide (action = DragAction.select) := by
  induction js with
  | nil => intro s _ j hj; exact hj
  | cons i rest ih =>
    intro s hdrag j hj
    rw [List.foldl_cons]
    refine ih (handleSlotMouseEnter s day i) (by rw [enter_drag, hdrag]) j ?_
    rw [enter_bit s day action i hdrag j]
    by_cases hji : j = i <;> simp [hji, hj]

/-- Every cell visited by a run of pointer-enters on the drag day ends at the
drag target value. -/
lemma run_covers (day : Day) (action : DragAction) (js : List ℕ) :
    ∀ s : UIState, s.drag = ⟨true, some day, some action⟩ →
    ∀ j ∈ js,
    Int.testBit
        ((js.foldl (fun t k => handleSlotMouseEnter t day k) s).selectedTimes
          day) j =
      decide (action = DragAction.select) := by
  induction js with
  | nil => intro s _ j hj; cases hj
  | cons i rest ih =>
    intro s hdrag j hj
    rw [List.foldl_cons]
    rcases List.mem_cons.mp hj with rfl | hmem
    · refine run_keeps_target day action rest (handleSlotMouseEnter s day j)
        (by rw [enter_drag, hdrag]) j ?_
      rw [enter_bit s day action j hdrag j]
      simp
    · exact ih (handleSlotMouseEnter s day i) (by rw [enter_drag, hdrag]) j hmem

/-- C2: during a drag in state `Dragging(day, action)`, a pointer-enter on
cell `(day, i)` leaves bit `i` of `day` equal to the drag target (set exactly
when the action is select/paint, clear exactly when it is deselect/erase)
whatever its prior state; re-entering a cell already at the target changes
nothing; and after a run of pointer-enters over any list of indices of that
day, every visited cell holds the target value. -/
theorem C2_drag_enter (s : UIState) (day : Day) (action : DragAction) (i : ℕ)
    (hdrag : s.drag = ⟨true, some day, some action⟩) (hi : i ≤ 59) :
    (isSlotSelected (handleSlotMouseEnter s day i).selectedTimes day i =
      decide (action = DragAction.select)) ∧
    (isSlotSelected s.selectedTimes day i =
        decide (action = DragAction.select) →
      handleSlotMouseEnter s day i = s) ∧
    (∀ (js : List ℕ) (j : ℕ), j ∈ js →
      isSlotSelected
          (js.foldl (fun t k => handleSlotMouseEnter t day k) s).selectedTimes
          day j =
        decide (action = DragAction.select)) := by
  refine ⟨?_, enter_noop s day action i hdrag, ?_⟩
  · rw [isSlotSelected_eq_testBit, enter_bit s day action i hdrag i, if_pos rfl]
  · intro js j hj
    rw [isSlotSelected_eq_testBit]
    exact run_covers day action js s hdrag j hj

/-- Witness for C2: paint-drag on Wednesday entering cell 21 from a fresh
drag state. -/
theorem C2_drag_enter_witness :
    ((UIState.mk initialState
        ⟨true, some Day.Wednesday, some DragAction.select⟩).drag =
        ⟨true, some Day.Wednesday, some DragAction.select⟩ ∧ (21 : ℕ) ≤ 59) ∧
    isSlotSelected
        (handleSlotMouseEnter
          (UIState.mk initialState
            ⟨true, some Day.Wednesday, some DragAction.select⟩)
          Day.Wednesday 21).selectedTimes Day.Wednesday 21 =
      decide (DragAction.select = DragAction.select) :=
  ⟨⟨rfl, by decide⟩,
   (C2_drag_enter
      (UIState.mk initialState
        ⟨true, some Day.Wednesday, some DragAction.select⟩)
      Day.Wednesday DragAction.select 21 rfl (by decide)).1⟩

/-- Witness for C3: drag on Monday, pointer-enter on `(Tuesday, 10)`. -/
theorem C3_cross_day_confinement_witness :
    ((UIState.mk initialState ⟨true, some Day.Monday, some DragAction.select⟩).drag =
        ⟨true, some Day.Monday, some DragAction.select⟩ ∧
      Day.Tuesday ≠ Day.Monday) ∧
    handleSlotMouseEnter
        (UIState.mk initialState ⟨true, some Day.Monday, some DragAction.select⟩)
        Day.Tuesday 10 =
      UIState.mk initialState ⟨true, some Day.Monday, some DragAction.select⟩ :=
  ⟨⟨rfl, by decide⟩,
   C3_cross_day_confinement
     (UIState.mk initialState ⟨true, some Day.Monday, some DragAction.select⟩)
     Day.Monday Day.Tuesday DragAction.select 10 rfl (by decide)⟩

/-! ### C5: out-of-range queries -/

/-- C5 counterexample: the spec-modelled `isSelected` fails with
`OutOfRangeError` at index 60, but the source `isSlotSelected` evaluates the
out-of-range query and returns the value `false` — no failure occurs. -/
theorem C5_counterexample :
    isSelectedSpec initialState Day.Monday 60 =
        Except.error SpecError.outOfRange ∧
      isSlotSelected initialState Day.Monday 60 = false :=
  ⟨rfl, by decide⟩

/-- C5 amended: querying `isSlotSelected` with an index ≥ 60 does not fail —
the code performs the bit test unconditionally and, on any valid availability
state (nonnegative day values below `2 ^ 60`), returns `false`. -/
theorem C5_amended_no_failure (a : Availability) (d : Day) (i : ℕ)
    (hvalid : validAvail a) (hi : 60 ≤ i) : isSlotSelected a d i = false := by
  rw [isSlotSelected_eq_testBit]
  obtain ⟨h0, hlt⟩ := hvalid d
  obtain ⟨n, hn⟩ := Int.eq_ofNat_of_zero_le h0
  have hnlt : n < 2 ^ 60 := by exact_mod_cast hn ▸ hlt
  rw [hn]
  show Nat.testBit n i = false
  exact Nat.testBit_lt_two_pow
    (lt_of_lt_of_le hnlt (Nat.pow_le_pow_right (by norm_num) hi))

/-- Witness for the amended C5 at index 60 on the initial state. -/
theorem C5_amended_no_failure_witness :
    (validAvail initialState ∧ (60 : ℕ) ≤ 60) ∧
      isSlotSelected initialState Day.Monday 60 = false :=
  ⟨⟨by intro d; exact ⟨le_refl 0, by show (0:ℤ) < 2 ^ 60; norm_num⟩, by decide⟩,
   C5_amended_no_failure initialState Day.Monday 60
     (by intro d; exact ⟨le_refl 0, by show (0:ℤ) < 2 ^ 60; norm_num⟩) (by decide)⟩

/-! ### C6: serialization -/

/-- C6: serialization is a pure total function sending each day to the
decimal string of that day's bitmask value; on the state with exactly
Monday's bits 0, 1, 2 set it produces `"7"` for Monday and `"0"` for every
other day. -/
theorem C6_serialization :
    (∀ (a : Availability) (d : Day) (n : ℕ), a d = (n : ℤ) →
      serializeSchedule a d = Nat.repr n) ∧
    serializeSchedule mondayFirstThree Day.Monday = "7" ∧
    (∀ d, d ≠ Day.Monday → serializeSchedule mondayFirstThree d = "0") := by
  refine ⟨?_, by decide, by decide⟩
  intro a d n ha
  unfold serializeSchedule
  rw [ha]
  rfl

/-- Witness for C6: the decimal-string form at the initial state, and the
non-Monday example value at Tuesday. -/
theorem C6_serialization_witness :
    (initialState Day.Monday = ((0 : ℕ) : ℤ) ∧
      serializeSchedule initialState Day.Monday = Nat.repr 0) ∧
    (Day.Tuesday ≠ Day.Monday ∧
      serializeSchedule mondayFirstThree Day.Tuesday = "0") :=
  ⟨⟨rfl, C6_serialization.1 initialState Day.Monday 0 rfl⟩,
   ⟨by decide, C6_serialization.2.2 Day.Tuesday (by decide)⟩⟩

/-! ### C7: hasAnySelection and the submission gate -/

lemma mem_DAYS (d : Day) : d ∈ DAYS := by
  cases d <;> simp [DAYS]

lemma nat_pos_iff_testBit (n : ℕ) : 0 < n ↔ ∃ i, n.testBit i = true := by
  constructor
  · intro h
    obtain ⟨i, hi, -⟩ :=
      Nat.exists_most_significant_bit (Nat.pos_iff_ne_zero.mp h)
    exact ⟨i, hi⟩
  · rintro ⟨i, hi⟩
    rcases Nat.eq_zero_or_pos n with rfl | h
    · rw [Nat.zero_testBit] at hi
      cases hi
    · exact h

/-- C7: `hasSelection` is true iff some day has some bit set; it is false on
the all-zero initial state and true immediately after any single
`setSlot(_, _, true)` from a valid state; and when it is false, submission
is blocked with the rejection notice and the availability mapping is
returned unchanged. -/
theorem C7_has_any_selection :
    (∀ a : Availability, (∀ d, 0 ≤ a d) →
      (hasSelection a = true ↔ ∃ d i, Int.testBit (a d) i = true)) ∧
    hasSelection initialState = false ∧
    (∀ (a : Availability) (d : Day) (i : ℕ), (∀ d2, 0 ≤ a d2) →
      hasSelection (setSlot a d i true) = true) ∧
    (∀ a : Availability, hasSelection a = false →
      handleSubmit a =
        (Except.error "Please select at least one time slot", a)) := by
  refine ⟨?_, by decide, ?_, ?_⟩
  · intro a ha
    unfold hasSelection
    rw [List.any_eq_true]
    constructor
    · rintro ⟨d, -, hd⟩
      rw [decide_eq_true_eq] at hd
      obtain ⟨n, hn⟩ := Int.eq_ofNat_of_zero_le (ha d)
      rw [hn] at hd
      have hpos : 0 < n := by exact_mod_cast hd
      obtain ⟨i, hi⟩ := (nat_pos_iff_testBit n).mp hpos
      refine ⟨d, i, ?_⟩
      rw [hn]
      exact hi
    · rintro ⟨d, i, hdi⟩
      refine ⟨d, mem_DAYS d, ?_⟩
      rw [decide_eq_true_eq]
      obtain ⟨n, hn⟩ := Int.eq_ofNat_of_zero_le (ha d)
      rw [hn] at hdi ⊢
      have hbit : n.testBit i = true := hdi
      have hpos : 0 < n := (nat_pos_iff_testBit n).mpr ⟨i, hbit⟩
      exact_mod_cast hpos
  · intro a d i ha
    unfold hasSelection
    rw [List.any_eq_true]
    refine ⟨d, mem_DAYS d, ?_⟩
    rw [decide_eq_true_eq]
    have hval : setSlot a d i true d =
        Int.lor (a d) ((1 : ℤ) <<< (i : ℤ)) := by
      simp [setSlot]
    rw [hval]
    obtain ⟨n, hn⟩ := Int.eq_ofNat_of_zero_le (ha d)
    rw [hn, one_shl_ofNat, show ((n : ℕ) : ℤ) = Int.ofNat n from rfl,
      lor_ofNat_ofNat, Int.ofNat_eq_coe]
    have hbit : (n ||| 2 ^ i).testBit i = true := by
      rw [Nat.testBit_or, Nat.testBit_two_pow_self]
      simp
    have hpos : 0 < (n ||| 2 ^ i) := (nat_pos_iff_testBit _).mpr ⟨i, hbit⟩
    exact_mod_cast hpos
  · intro a h
    unfold handleSubmit
    rw [h, if_pos rfl]

/-- Witness for C7: the iff at the initial state, a set bit at
`(Monday, 3)`, and the blocked submission on the empty state. -/
theorem C7_has_any_selection_witness :
    ((∀ d, 0 ≤ initialState d) ∧
      (hasSelection initialState = true ↔
        ∃ d i, Int.testBit (initialState d) i = true)) ∧
    hasSelection (setSlot initialState Day.Monday 3 true) = true ∧
    handleSubmit initialState =
      (Except.error "Please select at least one time slot", initialState) :=
  ⟨⟨by intro d; exact le_refl 0,
    C7_has_any_selection.1 initialState (by intro d; exact le_refl 0)⟩,
   C7_has_any_selection.2.2.1 initialState Day.Monday 3
     (by intro d; exact le_refl 0),
   C7_has_any_selection.2.2.2 initialState (by decide)⟩

/-! ### C10: reachable-state invariant -/

lemma nat_ldiff_eq_xor_and (n m : ℕ) : Nat.ldiff n m = n ^^^ (n &&& m) := by
  apply Nat.eq_of_testBit_eq
  intro j
  rw [Nat.testBit_ldiff, Nat.testBit_xor, Nat.testBit_and]
  cases n.testBit j <;> cases m.testBit j <;> rfl

lemma valid_applyOp (a : Availability) (op : SlotOp) (ha : validAvail a)
    (hop : opIndex op ≤ 59) : validAvail (applyOp a op) := by
  have hmask : (2 : ℕ) ^ opIndex op < 2 ^ 60 :=
    Nat.pow_lt_pow_right (by norm_num) (by omega)
  cases op with
  | toggle d i =>
    intro d2
    by_cases hd : d2 = d
    · subst hd
      have hval : toggleSlot a d2 i d2 =
          Int.xor (a d2) ((1 : ℤ) <<< (i : ℤ)) := by
        simp [toggleSlot]
      obtain ⟨n, hn⟩ := Int.eq_ofNat_of_zero_le (ha d2).1
      have hnlt : n < 2 ^ 60 := by exact_mod_cast hn ▸ (ha d2).2
      rw [applyOp, hval, hn, one_shl_ofNat,
        show ((n : ℕ) : ℤ) = Int.ofNat n from rfl, xor_ofNat_ofNat,
        Int.ofNat_eq_coe]
      refine ⟨Int.natCast_nonneg _, ?_⟩
      exact_mod_cast Nat.xor_lt_two_pow hnlt hmask
    · rw [applyOp, toggleSlot_apply_ne a d i d2 hd]
      exact ha d2
  | set d i b =>
    intro d2
    by_cases hd : d2 = d
    · subst hd
      obtain ⟨n, hn⟩ := Int.eq_ofNat_of_zero_le (ha d2).1
      have hnlt : n < 2 ^ 60 := by exact_mod_cast hn ▸ (ha d2).2
      cases b
      · have hval : setSlot a d2 i false d2 =
            Int.land (a d2) (Int.lnot ((1 : ℤ) <<< (i : ℤ))) := by
          simp [setSlot]
        rw [applyOp, hval, hn, one_shl_ofNat, lnot_ofNat,
          show ((n : ℕ) : ℤ) = Int.ofNat n from rfl, land_ofNat_negSucc,
          Int.ofNat_eq_coe]
        refine ⟨Int.natCast_nonneg _, ?_⟩
        have hle : n &&& 2 ^ i < 2 ^ 60 :=
          lt_of_le_of_lt Nat.and_le_left hnlt
        have : Nat.ldiff n (2 ^ i) < 2 ^ 60 := by
          rw [nat_ldiff_eq_xor_and]
          exact Nat.xor_lt_two_pow hnlt hle
        exact_mod_cast this
      · have hval : setSlot a d2 i true d2 =
            Int.lor (a d2) ((1 : ℤ) <<< (i : ℤ)) := by
          simp [setSlot]
        rw [applyOp, hval, hn, one_shl_ofNat,
          show ((n : ℕ) : ℤ) = Int.ofNat n from rfl, lor_ofNat_ofNat,
          Int.ofNat_eq_coe]
        refine ⟨Int.natCast_nonneg _, ?_⟩
        exact_mod_cast Nat.or_lt_two_pow hnlt hmask
    · rw [applyOp, setSlot_apply_ne a d i b d2 hd]
      exact ha d2

lemma valid_foldl (l : List SlotOp) :
    ∀ a : Availability, validAvail a → (∀ op ∈ l, opIndex op ≤ 59) →
    validAvail (l.foldl applyOp a) := by
  induction l with
  | nil => intro a ha _; exact ha
  | cons op rest ih =>
    intro a ha hl
    rw [List.foldl_cons]
    exact ih (applyOp a op)
      (valid_applyOp a op ha (hl op (List.mem_cons_self op rest)))
      (fun o ho => hl o (List.mem_cons_of_mem op ho))

/-- C10: starting from the all-zero initial state, every sequence of toggle
and set operations whose indices lie in [0, 59] keeps each day's bitmask
nonnegative and strictly below `2 ^ 60`, so no bit at a position 60 or above
is ever set.  (The mapping's domain is the full seven-day `Day` type by
construction: the record is a total map and each update replaces a single
existing key.) -/
theorem C10_reachable_invariant (ops : List SlotOp)
    (hops : ∀ op ∈ ops, opIndex op ≤ 59) :
    ∀ d, 0 ≤ applyOps initialState ops d ∧
      applyOps initialState ops d < 2 ^ 60 ∧
      ∀ j, 60 ≤ j → Int.testBit (applyOps initialState ops d) j = false := by
  have hvalid : validAvail (applyOps initialState ops) :=
    valid_foldl ops initialState
      (by intro d; exact ⟨le_refl 0, by show (0:ℤ) < 2 ^ 60; norm_num⟩) hops
  intro d
  obtain ⟨h0, hlt⟩ := hvalid d
  refine ⟨h0, hlt, ?_⟩
  intro j hj
  obtain ⟨n, hn⟩ := Int.eq_ofNat_of_zero_le h0
  have hnlt : n < 2 ^ 60 := by exact_mod_cast hn ▸ hlt
  rw [hn]
  show Nat.testBit n j = false
  exact Nat.testBit_lt_two_pow
    (lt_of_lt_of_le hnlt (Nat.pow_le_pow_right (by norm_num) hj))

/-- Witness for C10 on the two-operation sequence toggle then clear. -/
theorem C10_reachable_invariant_witness :
    (∀ op ∈ [SlotOp.toggle Day.Monday 10, SlotOp.set Day.Monday 10 false],
      opIndex op ≤ 59) ∧
    0 ≤ applyOps initialState
        [SlotOp.toggle Day.Monday 10, SlotOp.set Day.Monday 10 false]
        Day.Monday :=
  ⟨by decide,
   (C10_reachable_invariant
      [SlotOp.toggle Day.Monday 10, SlotOp.set Day.Monday 10 false]
      (by decide) Day.Monday).1⟩

/-! ### C4: slot labels -/

/-- C4 counterexample: slot index 28 (hour 14) is labelled `"2:00 PM"` by the
code, not `"12:00 PM"` as the claim states. -/
theorem C4_counterexample : timeLabel 28 ≠ "12:00 PM" := by decide

/-- C4 amended: every slot label follows the formula `hour = 7 + i / 4`,
`minute = (i % 4) * 15` with hour marks shown as `H:00` plus meridiem and
other slots as `H:MM` (12-hour display hour); the enumerated examples hold
with index 28 labelled `"2:00 PM"` (hour 14 displayed mod 12), not
`"12:00 PM"`. -/
theorem C4_label_derivation :
    (∀ i, i < 60 → timeLabel i = specTimeLabel i) ∧
    timeLabel 0 = "7:00 AM" ∧ timeLabel 4 = "8:00 AM" ∧
    timeLabel 3 = "7:45" ∧ timeLabel 28 = "2:00 PM" ∧
    timeLabel 59 = "9:45" := by
  refine ⟨?_, by decide, by decide, by decide, by decide, by decide⟩
  decide

/-- Witness for the amended C4 at slot index 0. -/
theorem C4_label_derivation_witness :
    (0 : ℕ) < 60 ∧ timeLabel 0 = specTimeLabel 0 :=
  ⟨by decide, C4_label_derivation.1 0 (by decide)⟩

end Sched
